import Mathlib

/-!
Verification development for the Slither tile-grid game engine.

The JavaScript sources are shallowly embedded: JS objects used as
string/number-keyed dictionaries become association lists with unique keys,
object identity becomes numeric identifiers, JS numbers become Int/Nat/Rat
(numeric literals such as 0.5 are modelled as exact rationals), and the
event-driven handlers become pure functions returning the mutated state
together with the list of events they emit.
-/

/-! ### Association lists (model of JS object key lookup / assignment / delete) -/

def assocGet {α β : Type} [DecidableEq α] : List (α × β) → α → Option β
  | [], _ => none
  | (k, v) :: rest, key => if key = k then some v else assocGet rest key

def assocSet {α β : Type} [DecidableEq α] : List (α × β) → α → β → List (α × β)
  | [], key, val => [(key, val)]
  | (k, v) :: rest, key, val =>
    if key = k then (key, val) :: rest else (k, v) :: assocSet rest key val

def assocRemove {α β : Type} [DecidableEq α] : List (α × β) → α → List (α × β)
  | [], _ => []
  | (k, v) :: rest, key => if key = k then rest else (k, v) :: assocRemove rest key

theorem assocGet_set_self {α β : Type} [DecidableEq α] (l : List (α × β)) (k : α) (v : β) :
    assocGet (assocSet l k v) k = some v := by
  induction l with
  | nil => simp [assocGet, assocSet]
  | cons p rest ih =>
    obtain ⟨k0, v0⟩ := p
    by_cases h : k = k0
    · simp [assocGet, assocSet, h]
    · simp [assocGet, assocSet, h, ih]

theorem assocGet_set_ne {α β : Type} [DecidableEq α] (l : List (α × β)) (k k' : α) (v : β)
    (h : k' ≠ k) : assocGet (assocSet l k v) k' = assocGet l k' := by
  induction l with
  | nil => simp [assocGet, assocSet, h]
  | cons p rest ih =>
    obtain ⟨k0, v0⟩ := p
    by_cases hk : k = k0
    · subst hk
      simp [assocGet, assocSet, h]
    · by_cases hk' : k' = k0
      · simp [assocGet, assocSet, hk, hk']
      · simp [assocGet, assocSet, hk, hk', ih]

theorem assocGet_remove_ne {α β : Type} [DecidableEq α] (l : List (α × β)) (k k' : α)
    (h : k' ≠ k) : assocGet (assocRemove l k) k' = assocGet l k' := by
  induction l with
  | nil => simp [assocGet, assocRemove]
  | cons p rest ih =>
    obtain ⟨k0, v0⟩ := p
    by_cases hk : k = k0
    · subst hk
      simp [assocGet, assocRemove, h]
    · by_cases hk' : k' = k0
      · simp [assocGet, assocRemove, hk, hk']
      · simp [assocGet, assocRemove, hk, hk', ih]

theorem assocGet_none_iff {α β : Type} [DecidableEq α] (l : List (α × β)) (k : α) :
    assocGet l k = none ↔ k ∉ l.map Prod.fst := by
  induction l with
  | nil => simp [assocGet]
  | cons p rest ih =>
    obtain ⟨k0, v0⟩ := p
    by_cases hk : k = k0
    · simp [assocGet, hk]
    · simp [assocGet, hk, ih]

theorem assocGet_mem {α β : Type} [DecidableEq α] {l : List (α × β)} {k : α} {v : β}
    (h : assocGet l k = some v) : (k, v) ∈ l := by
  induction l with
  | nil => simp [assocGet] at h
  | cons p rest ih =>
    obtain ⟨k0, v0⟩ := p
    by_cases hk : k = k0
    · simp [assocGet, hk] at h
      subst hk
      subst h
      exact List.mem_cons_self _ _
    · simp [assocGet, hk] at h
      exact List.mem_cons_of_mem _ (ih h)

theorem assocGet_mem_keys {α β : Type} [DecidableEq α] {l : List (α × β)} {k : α} {v : β}
    (h : assocGet l k = some v) : k ∈ l.map Prod.fst := by
  have := assocGet_mem h
  exact List.mem_map_of_mem Prod.fst this

theorem assocSet_append {α β : Type} [DecidableEq α] (l : List (α × β)) (k : α) (v : β)
    (h : assocGet l k = none) : assocSet l k v = l ++ [(k, v)] := by
  induction l with
  | nil => simp [assocSet]
  | cons p rest ih =>
    obtain ⟨k0, v0⟩ := p
    by_cases hk : k = k0
    · simp [assocGet, hk] at h
    · simp [assocGet, hk] at h
      simp [assocSet, hk, ih h]

theorem keys_assocSet_of_mem {α β : Type} [DecidableEq α] (l : List (α × β)) (k : α) (v : β)
    (h : k ∈ l.map Prod.fst) : (assocSet l k v).map Prod.fst = l.map Prod.fst := by
  induction l with
  | nil => simp at h
  | cons p rest ih =>
    obtain ⟨k0, v0⟩ := p
    by_cases hk : k = k0
    · simp [assocSet, hk]
    · have h' : k ∈ rest.map Prod.fst := by
        simp only [List.map_cons, List.mem_cons] at h
        rcases h with h | h
        · exact absurd h hk
        · exact h
      simp [assocSet, hk, ih h']

theorem mem_assocSet {α β : Type} [DecidableEq α] {l : List (α × β)} {k : α} {v : β}
    {p : α × β} (h : p ∈ assocSet l k v) : p = (k, v) ∨ p ∈ l := by
  induction l with
  | nil =>
    simp [assocSet] at h
    exact Or.inl h
  | cons q rest ih =>
    obtain ⟨k0, v0⟩ := q
    by_cases hk : k = k0
    · subst hk
      simp [assocSet] at h
      rcases h with h | h
      · exact Or.inl (by simp [h])
      · exact Or.inr (List.mem_cons_of_mem _ h)
    · simp [assocSet, hk] at h
      rcases h with h | h
      · exact Or.inr (by simp [h])
      · rcases ih h with h2 | h2
        · exact Or.inl h2
        · exact Or.inr (List.mem_cons_of_mem _ h2)

theorem assocRemove_sublist {α β : Type} [DecidableEq α] (l : List (α × β)) (k : α) :
    (assocRemove l k).Sublist l := by
  induction l with
  | nil => simp [assocRemove]
  | cons p rest ih =>
    obtain ⟨k0, v0⟩ := p
    by_cases hk : k = k0
    · simp [assocRemove, hk]
    · simpa [assocRemove, hk] using List.Sublist.cons₂ (k0, v0) ih

theorem length_assocRemove {α β : Type} [DecidableEq α] (l : List (α × β)) (k : α)
    (h : k ∈ l.map Prod.fst) : (assocRemove l k).length + 1 = l.length := by
  induction l with
  | nil => simp at h
  | cons p rest ih =>
    obtain ⟨k0, v0⟩ := p
    by_cases hk : k = k0
    · simp [assocRemove, hk]
    · have h' : k ∈ rest.map Prod.fst := by
        simp only [List.map_cons, List.mem_cons] at h
        rcases h with h | h
        · exact absurd h hk
        · exact h
      simp [assocRemove, hk, ih h']

theorem assocGet_remove_self {α β : Type} [DecidableEq α] (l : List (α × β)) (k : α)
    (h : (l.map Prod.fst).Nodup) : assocGet (assocRemove l k) k = none := by
  induction l with
  | nil => simp [assocRemove, assocGet]
  | cons p rest ih =>
    obtain ⟨k0, v0⟩ := p
    simp at h
    by_cases hk : k = k0
    · subst hk
      rw [assocGet_none_iff]
      simp [assocRemove]
      exact h.1
    · simp [assocRemove, hk, assocGet]
      exact ih h.2

theorem two_mem_length {α β : Type} [DecidableEq α] {l : List (α × β)} {k1 k2 : α}
    {v1 v2 : β} (h1 : assocGet l k1 = some v1) (h2 : assocGet l k2 = some v2)
    (hne : k1 ≠ k2) : 2 ≤ l.length := by
  induction l with
  | nil => simp [assocGet] at h1
  | cons p rest ih =>
    obtain ⟨k0, v0⟩ := p
    by_cases hk1 : k1 = k0
    · have hk2 : k2 ≠ k0 := fun h => hne (by rw [hk1, h])
      simp [assocGet, hk2] at h2
      have : rest ≠ [] := by
        intro h
        rw [h] at h2
        simp [assocGet] at h2
      have : 1 ≤ rest.length := by
        cases rest with
        | nil => exact absurd rfl this
        | cons q qs => simp
      simp
      omega
    · by_cases hk2 : k2 = k0
      · simp [assocGet, hk1] at h1
        have : rest ≠ [] := by
          intro h
          rw [h] at h1
          simp [assocGet] at h1
        have : 1 ≤ rest.length := by
          cases rest with
          | nil => exact absurd rfl this
          | cons q qs => simp
        simp
        omega
      · simp [assocGet, hk1] at h1
        simp [assocGet, hk2] at h2
        have := ih h1 h2
        simp
        omega

/-! ### Allocation grid (Slither.Game alloc_info, onAlloc, onDealloc)

The JS grid is a sparse nested object: alloc_info[x] is created on demand as
an object carrying a manual length counter, alloc_info[x][y] holds the owner
reference, and rows are deleted when their counter reaches zero. Entities are
identified by Nat ids (JS object identity). -/

structure AllocRow where
  len : Int
  cells : List (Nat × Nat)
deriving Repr, DecidableEq

abbrev Grid := List (Nat × AllocRow)

inductive GameEvent
  | collide (initiator receiver : Nat) (x y : Nat)
  | allocRecv (target : Nat) (x y : Nat)
deriving Repr, DecidableEq

def Game.getAllocObj (g : Grid) (x y : Nat) : Option Nat :=
  match assocGet g x with
  | some row => assocGet row.cells y
  | none => none

def Game.setAllocObj (g : Grid) (x y owner : Nat) : Grid :=
  let row : AllocRow :=
    match assocGet g x with
    | none => { len := 0, cells := [] }
    | some r => r
  assocSet g x { len := row.len + 1, cells := assocSet row.cells y owner }

def Game.onAlloc (g : Grid) (sender : Nat) (x y : Nat) : Grid × List GameEvent :=
  match Game.getAllocObj g x y with
  | some owner => (g, [GameEvent.collide sender owner x y])
  | none => (Game.setAllocObj g x y sender, [GameEvent.allocRecv sender x y])

def Game.onDealloc (g : Grid) (sender : Nat) (x y : Nat) : Grid :=
  if Game.getAllocObj g x y = some sender then
    match assocGet g x with
    | none => g
    | some row =>
      if row.len - 1 = 0 then assocRemove g x
      else assocSet g x { len := row.len - 1, cells := assocRemove row.cells y }
  else g

/-- A row is consistent when its manual length counter agrees with the number
of allocated cells in it and its cell keys are unique. -/
def rowConsistent (r : AllocRow) : Prop :=
  r.len = (r.cells.length : Int) ∧ (r.cells.map Prod.fst).Nodup

/-- Grid consistency: unique row keys and every row consistent. This invariant
holds for every grid built from the empty one through onAlloc and onDealloc. -/
def gridConsistent (g : Grid) : Prop :=
  (g.map Prod.fst).Nodup ∧ ∀ p ∈ g, rowConsistent p.2

instance (r : AllocRow) : Decidable (rowConsistent r) := by
  unfold rowConsistent
  exact inferInstance

instance (g : Grid) : Decidable (gridConsistent g) := by
  unfold gridConsistent
  exact inferInstance

inductive GridOp
  | alloc (sender x y : Nat)
  | dealloc (sender x y : Nat)
deriving Repr, DecidableEq

def applyOp (g : Grid) : GridOp → Grid
  | GridOp.alloc s x y => (Game.onAlloc g s x y).1
  | GridOp.dealloc s x y => Game.onDealloc g s x y

def applyOps (g : Grid) (ops : List GridOp) : Grid :=
  ops.foldl applyOp g

theorem setAllocObj_consistent (g : Grid) (x y owner : Nat)
    (hc : gridConsistent g) (hfree : Game.getAllocObj g x y = none) :
    gridConsistent (Game.setAllocObj g x y owner) := by
  unfold Game.setAllocObj
  cases hx : assocGet g x with
  | none =>
    have hkeys : x ∉ g.map Prod.fst := (assocGet_none_iff g x).mp hx
    rw [assocSet_append g x _ hx]
    constructor
    · rw [List.map_append]
      refine List.Nodup.append hc.1 (by simp) ?_
      intro a ha hb
      simp at hb
      subst hb
      exact hkeys ha
    · intro p hp
      rcases List.mem_append.mp hp with hp | hp
      · exact hc.2 p hp
      · simp at hp
        subst hp
        constructor
        · simp [assocSet]
        · simp [assocSet]
  | some r =>
    have hry : assocGet r.cells y = none := by
      unfold Game.getAllocObj at hfree
      rw [hx] at hfree
      exact hfree
    have hrc : rowConsistent r := hc.2 (x, r) (assocGet_mem hx)
    have hxk : x ∈ g.map Prod.fst := assocGet_mem_keys hx
    constructor
    · rw [keys_assocSet_of_mem g x _ hxk]
      exact hc.1
    · intro p hp
      rcases mem_assocSet hp with hp | hp
      · subst hp
        constructor
        · simp only [assocSet_append r.cells y owner hry]
          simp [hrc.1]
        · simp only [assocSet_append r.cells y owner hry]
          rw [List.map_append]
          refine List.Nodup.append hrc.2 (by simp) ?_
          intro a ha hb
          simp at hb
          rw [hb] at ha
          exact (assocGet_none_iff r.cells y).mp hry ha
      · exact hc.2 p hp

theorem onAlloc_consistent (g : Grid) (s x y : Nat) (hc : gridConsistent g) :
    gridConsistent (Game.onAlloc g s x y).1 := by
  unfold Game.onAlloc
  cases hfree : Game.getAllocObj g x y with
  | some owner => exact hc
  | none => exact setAllocObj_consistent g x y s hc hfree

theorem onDealloc_consistent (g : Grid) (s x y : Nat) (hc : gridConsistent g) :
    gridConsistent (Game.onDealloc g s x y) := by
  unfold Game.onDealloc
  by_cases hown : Game.getAllocObj g x y = some s
  · rw [if_pos hown]
    cases hx : assocGet g x with
    | none => exact hc
    | some r =>
      have hry : assocGet r.cells y = some s := by
        unfold Game.getAllocObj at hown
        rw [hx] at hown
        exact hown
      have hrc : rowConsistent r := hc.2 (x, r) (assocGet_mem hx)
      have hyk : y ∈ r.cells.map Prod.fst := assocGet_mem_keys hry
      dsimp only
      by_cases hlen : r.len - 1 = 0
      · rw [if_pos hlen]
        constructor
        · exact hc.1.sublist ((assocRemove_sublist g x).map Prod.fst)
        · intro p hp
          exact hc.2 p ((assocRemove_sublist g x).mem hp)
      · rw [if_neg hlen]
        constructor
        · rw [keys_assocSet_of_mem g x _ (assocGet_mem_keys hx)]
          exact hc.1
        · intro p hp
          rcases mem_assocSet hp with hp | hp
          · subst hp
            constructor
            · have := length_assocRemove r.cells y hyk
              have := hrc.1
              simp only []
              omega
            · exact hrc.2.sublist ((assocRemove_sublist r.cells y).map Prod.fst)
          · exact hc.2 p hp
  · rw [if_neg hown]
    exact hc

theorem onAlloc_preserves_owner (g : Grid) (A s x y x2 y2 : Nat)
    (hown : Game.getAllocObj g x y = some A) :
    Game.getAllocObj (Game.onAlloc g s x2 y2).1 x y = some A := by
  unfold Game.onAlloc
  cases hfree : Game.getAllocObj g x2 y2 with
  | some owner => exact hown
  | none =>
    unfold Game.setAllocObj
    cases hx2 : assocGet g x2 with
    | none =>
      have hne : x ≠ x2 := by
        intro h
        subst h
        unfold Game.getAllocObj at hown
        rw [hx2] at hown
        exact Option.noConfusion hown
      unfold Game.getAllocObj
      rw [assocGet_set_ne g x2 x _ hne]
      exact hown
    | some r =>
      by_cases hxx : x = x2
      · subst hxx
        have hyy : y ≠ y2 := by
          intro h
          subst h
          unfold Game.getAllocObj at hown hfree
          rw [hx2] at hown hfree
          rw [hown] at hfree
          exact Option.noConfusion hfree
        unfold Game.getAllocObj at hown ⊢
        rw [hx2] at hown
        rw [assocGet_set_self]
        simp only []
        rw [assocGet_set_ne _ y2 y _ hyy]
        exact hown
      · unfold Game.getAllocObj
        rw [assocGet_set_ne g x2 x _ hxx]
        exact hown

theorem onDealloc_preserves_owner (g : Grid) (A s x y x2 y2 : Nat)
    (hc : gridConsistent g) (hown : Game.getAllocObj g x y = some A)
    (hne : ¬(s = A ∧ x2 = x ∧ y2 = y)) :
    Game.getAllocObj (Game.onDealloc g s x2 y2) x y = some A := by
  unfold Game.onDealloc
  by_cases howner : Game.getAllocObj g x2 y2 = some s
  · rw [if_pos howner]
    cases hx2 : assocGet g x2 with
    | none => exact hown
    | some r =>
      by_cases hxx : x2 = x
      · subst hxx
        have hrx : assocGet g x2 = some r := hx2
        have hcy : assocGet r.cells y = some A := by
          unfold Game.getAllocObj at hown
          rw [hx2] at hown
          exact hown
        have hcy2 : assocGet r.cells y2 = some s := by
          unfold Game.getAllocObj at howner
          rw [hx2] at howner
          exact howner
        have hyy : y2 ≠ y := by
          intro h
          subst h
          rw [hcy] at hcy2
          exact hne ⟨(Option.some.inj hcy2).symm, rfl, rfl⟩
        have hrc : rowConsistent r := hc.2 (x2, r) (assocGet_mem hx2)
        have hlen2 : 2 ≤ r.cells.length := two_mem_length hcy2 hcy hyy
        have hlen : ¬(r.len - 1 = 0) := by
          have := hrc.1
          omega
        dsimp only
        rw [if_neg hlen]
        unfold Game.getAllocObj
        rw [assocGet_set_self]
        simp only []
        rw [assocGet_remove_ne _ y2 y hyy.symm]
        exact hcy
      · have hxx2 : x ≠ x2 := fun h => hxx h.symm
        dsimp only
        by_cases hlen : r.len - 1 = 0
        · rw [if_pos hlen]
          unfold Game.getAllocObj at hown ⊢
          rw [assocGet_remove_ne g x2 x hxx2]
          exact hown
        · rw [if_neg hlen]
          unfold Game.getAllocObj at hown ⊢
          rw [assocGet_set_ne g x2 x _ hxx2]
          exact hown
  · rw [if_neg howner]
    exact hown

theorem applyOp_stable (g : Grid) (A x y : Nat) (op : GridOp)
    (hc : gridConsistent g) (hown : Game.getAllocObj g x y = some A)
    (hop : op ≠ GridOp.dealloc A x y) :
    gridConsistent (applyOp g op) ∧ Game.getAllocObj (applyOp g op) x y = some A := by
  cases op with
  | alloc s x2 y2 =>
    exact ⟨onAlloc_consistent g s x2 y2 hc, onAlloc_preserves_owner g A s x y x2 y2 hown⟩
  | dealloc s x2 y2 =>
    refine ⟨onDealloc_consistent g s x2 y2 hc, ?_⟩
    refine onDealloc_preserves_owner g A s x y x2 y2 hc hown ?_
    rintro ⟨h1, h2, h3⟩
    exact hop (by rw [h1, h2, h3])

theorem applyOps_stable (A x y : Nat) :
    ∀ (ops : List GridOp) (g : Grid), gridConsistent g →
      Game.getAllocObj g x y = some A →
      (∀ op ∈ ops, op ≠ GridOp.dealloc A x y) →
      gridConsistent (applyOps g ops) ∧
        Game.getAllocObj (applyOps g ops) x y = some A := by
  intro ops
  induction ops with
  | nil =>
    intro g hc hown _
    exact ⟨hc, hown⟩
  | cons op rest ih =>
    intro g hc hown hops
    have hstep := applyOp_stable g A x y op hc hown (hops op (List.mem_cons_self _ _))
    have := ih (applyOp g op) hstep.1 hstep.2 (fun o ho => hops o (List.mem_cons_of_mem _ ho))
    simpa [applyOps] using this

theorem getAllocObj_setAllocObj_self (g : Grid) (x y o : Nat) :
    Game.getAllocObj (Game.setAllocObj g x y o) x y = some o := by
  unfold Game.setAllocObj Game.getAllocObj
  dsimp only
  rw [assocGet_set_self]
  dsimp only
  exact assocGet_set_self _ y o

theorem onAlloc_occupied (g : Grid) (s o x y : Nat)
    (h : Game.getAllocObj g x y = some o) :
    Game.onAlloc g s x y = (g, [GameEvent.collide s o x y]) := by
  unfold Game.onAlloc
  rw [h]

theorem onDealloc_nonowner (g : Grid) (s x y : Nat)
    (h : ¬Game.getAllocObj g x y = some s) :
    Game.onDealloc g s x y = g := by
  unfold Game.onDealloc
  rw [if_neg h]

theorem onDealloc_owner_frees (g : Grid) (s x y : Nat) (hc : gridConsistent g)
    (h : Game.getAllocObj g x y = some s) :
    Game.getAllocObj (Game.onDealloc g s x y) x y = none := by
  unfold Game.onDealloc
  rw [if_pos h]
  cases hx : assocGet g x with
  | none =>
    unfold Game.getAllocObj at h
    rw [hx] at h
    exact Option.noConfusion h
  | some r =>
    dsimp only
    by_cases hlen : r.len - 1 = 0
    · rw [if_pos hlen]
      unfold Game.getAllocObj
      rw [assocGet_remove_self g x hc.1]
    · rw [if_neg hlen]
      unfold Game.getAllocObj
      rw [assocGet_set_self]
      dsimp only
      have hrc : rowConsistent r := hc.2 (x, r) (assocGet_mem hx)
      exact assocGet_remove_self r.cells y hrc.2

/-- C1: allocation grid exclusivity. Starting from any consistent grid in
which cell (x, y) is free, onAlloc by entity A emits exactly one alloc-recv
event targeted at A and records A as owner of the cell; a later onAlloc by
any B distinct from A leaves the grid unchanged and emits exactly one
collide event naming B as initiator and A as receiver; onDealloc by any
sender other than A leaves the grid unchanged; onDealloc by A frees the
cell; and the owner of the cell remains A across any sequence of
onAlloc/onDealloc operations that contains no onDealloc by A at that cell.
A cell having at most one owner, and unowned cells being absent, are
structural properties of the sparse map representation (getAllocObj yields
an optional single owner). -/
theorem C1_alloc_grid_exclusivity (g : Grid) (A B x y : Nat)
    (hc : gridConsistent g) (hfree : Game.getAllocObj g x y = none) (_hBA : B ≠ A) :
    (Game.onAlloc g A x y).2 = [GameEvent.allocRecv A x y] ∧
    Game.getAllocObj (Game.onAlloc g A x y).1 x y = some A ∧
    (Game.onAlloc (Game.onAlloc g A x y).1 B x y).1 = (Game.onAlloc g A x y).1 ∧
    (Game.onAlloc (Game.onAlloc g A x y).1 B x y).2 = [GameEvent.collide B A x y] ∧
    (∀ s : Nat, s ≠ A →
      Game.onDealloc (Game.onAlloc g A x y).1 s x y = (Game.onAlloc g A x y).1) ∧
    Game.getAllocObj (Game.onDealloc (Game.onAlloc g A x y).1 A x y) x y = none ∧
    (∀ ops : List GridOp, (∀ op ∈ ops, op ≠ GridOp.dealloc A x y) →
      Game.getAllocObj (applyOps (Game.onAlloc g A x y).1 ops) x y = some A) := by
  have hg1 : (Game.onAlloc g A x y).1 = Game.setAllocObj g x y A := by
    unfold Game.onAlloc
    rw [hfree]
  have hev : (Game.onAlloc g A x y).2 = [GameEvent.allocRecv A x y] := by
    unfold Game.onAlloc
    rw [hfree]
  have hown : Game.getAllocObj (Game.onAlloc g A x y).1 x y = some A := by
    rw [hg1]
    exact getAllocObj_setAllocObj_self g x y A
  have hc1 : gridConsistent (Game.onAlloc g A x y).1 := onAlloc_consistent g A x y hc
  refine ⟨hev, hown, ?_, ?_, ?_, ?_, ?_⟩
  · rw [onAlloc_occupied _ B A x y hown]
  · rw [onAlloc_occupied _ B A x y hown]
  · intro s hs
    refine onDealloc_nonowner _ s x y ?_
    rw [hown]
    intro hcontra
    exact hs (Option.some.inj hcontra).symm
  · exact onDealloc_owner_frees _ A x y hc1 hown
  · intro ops hops
    exact (applyOps_stable A x y ops _ hc1 hown hops).2

theorem C1_alloc_grid_exclusivity_witness :
    gridConsistent ([] : Grid) ∧ Game.getAllocObj ([] : Grid) 5 7 = none ∧
    Game.getAllocObj (Game.onAlloc ([] : Grid) 0 5 7).1 5 7 = some 0 :=
  ⟨by decide, by decide,
    (C1_alloc_grid_exclusivity [] 0 1 5 7 (by decide) (by decide) (by decide)).2.1⟩

/-! ### Event bus (Slither.Core.EventManager)

Callbacks and owner scopes are identified by Nat ids (JS function and object
identity); a handler stores its callback and, when a truthy owner was given
at registration, that owner. Topics are the JS event type strings. Whether a
callback invocation returns the boolean value false is modelled by an
environment function env from (callback, owner) to Bool, with false meaning
the JS value false (the short-circuit trigger). A trigger call returns the
list of handlers it invoked, in order; it never mutates the handler table. -/

structure Handler where
  callback : Nat
  owner : Option Nat
deriving Repr, DecidableEq

structure EventManager where
  events : List (String × List Handler)
deriving Repr, DecidableEq

/-- The per-handler test inside EventManager.searchForCallback: with a truthy
owner both callback and owner must match, otherwise only the callback. -/
def handlerMatches (h : Handler) (cb : Nat) (owner : Option Nat) : Bool :=
  match owner with
  | some o => decide (h.callback = cb) && decide (h.owner = some o)
  | none => decide (h.callback = cb)

def searchForCallbackAux (cb : Nat) (owner : Option Nat) : List Handler → Int → Int
  | [], _ => -1
  | h :: rest, idx =>
    if handlerMatches h cb owner then idx else searchForCallbackAux cb owner rest (idx + 1)

def EventManager.searchForCallback (handlers : List Handler) (cb : Nat)
    (owner : Option Nat) : Int :=
  searchForCallbackAux cb owner handlers 0

def EventManager.register (em : EventManager) (event_type : String) (cb : Nat)
    (owner : Option Nat) : EventManager × Bool :=
  let handlers := (assocGet em.events event_type).getD []
  if EventManager.searchForCallback handlers cb owner = -1 then
    ({ events := assocSet em.events event_type
        (handlers ++ [{ callback := cb, owner := owner }]) }, true)
  else (em, false)

/-- The dispatch loop of EventManager.trigger: handlers fire in order, a
handler whose owner differs from a supplied target_only is skipped, and a
callback returning the value false breaks the chain. Returns the invoked
handlers in order. -/
def runHandlers (env : Nat → Option Nat → Bool) (target_only : Option Nat) :
    List Handler → List Handler
  | [] => []
  | h :: rest =>
    match target_only with
    | some t =>
      if h.owner ≠ some t then runHandlers env target_only rest
      else if env h.callback h.owner then h :: runHandlers env target_only rest
      else [h]
    | none =>
      if env h.callback h.owner then h :: runHandlers env target_only rest
      else [h]

def EventManager.trigger (em : EventManager) (env : Nat → Option Nat → Bool)
    (event_type : String) (target_only : Option Nat) : List Handler :=
  runHandlers env target_only ((assocGet em.events event_type).getD [])

/-- Environment in which no callback returns the value false. -/
def envTrue : Nat → Option Nat → Bool := fun _ _ => true

theorem searchAux_eq_neg_one_iff (cb : Nat) (owner : Option Nat) :
    ∀ (l : List Handler) (idx : Int), 0 ≤ idx →
      (searchForCallbackAux cb owner l idx = -1 ↔
        ∀ h ∈ l, handlerMatches h cb owner = false) := by
  intro l
  induction l with
  | nil =>
    intro idx _
    simp [searchForCallbackAux]
  | cons h rest ih =>
    intro idx hidx
    by_cases hm : handlerMatches h cb owner
    · simp [searchForCallbackAux, hm]
      omega
    · simp only [searchForCallbackAux, if_neg hm]
      rw [ih (idx + 1) (by omega)]
      simp [hm]

theorem search_eq_neg_one_iff (handlers : List Handler) (cb : Nat) (owner : Option Nat) :
    EventManager.searchForCallback handlers cb owner = -1 ↔
      ∀ h ∈ handlers, handlerMatches h cb owner = false := by
  exact searchAux_eq_neg_one_iff cb owner handlers 0 (by omega)

theorem handlerMatches_self (cb : Nat) (owner : Option Nat) :
    handlerMatches { callback := cb, owner := owner } cb owner = true := by
  cases owner with
  | none => simp [handlerMatches]
  | some o => simp [handlerMatches]

theorem register_true_elim (em : EventManager) (t : String) (cb : Nat)
    (owner : Option Nat) (em1 : EventManager)
    (h : EventManager.register em t cb owner = (em1, true)) :
    EventManager.searchForCallback ((assocGet em.events t).getD []) cb owner = -1 ∧
      em1.events = assocSet em.events t
        (((assocGet em.events t).getD []) ++ [{ callback := cb, owner := owner }]) := by
  unfold EventManager.register at h
  by_cases hs : EventManager.searchForCallback ((assocGet em.events t).getD []) cb owner = -1
  · rw [if_pos hs] at h
    have := congrArg Prod.fst h
    simp at this
    exact ⟨hs, by rw [← this]⟩
  · rw [if_neg hs] at h
    have := congrArg Prod.snd h
    simp at this

theorem runHandlers_envTrue (l : List Handler) :
    runHandlers envTrue none l = l := by
  induction l with
  | nil => rfl
  | cons h rest ih => simp [runHandlers, envTrue, ih]

theorem handlers_after_register (em : EventManager) (t : String) (cb : Nat)
    (owner : Option Nat) (em1 : EventManager)
    (h : EventManager.register em t cb owner = (em1, true)) :
    (assocGet em1.events t).getD [] =
      ((assocGet em.events t).getD []) ++ [{ callback := cb, owner := owner }] := by
  have := (register_true_elim em t cb owner em1 h).2
  rw [this, assocGet_set_self]
  rfl

/-- C2: idempotent registration. If register(t, f, s) succeeds from any bus
state, an immediately repeated register(t, f, s) with the identical
callback+scope pair returns false and leaves the bus (hence the handler
list) unchanged, and a trigger of t in which no callback short-circuits
invokes the (f, s) handler exactly once. -/
theorem C2_register_idempotent (em : EventManager) (t : String) (f : Nat)
    (s : Option Nat) (em1 : EventManager)
    (h : EventManager.register em t f s = (em1, true)) :
    EventManager.register em1 t f s = (em1, false) ∧
    (EventManager.trigger em1 envTrue t none).count { callback := f, owner := s } = 1 := by
  have helim := register_true_elim em t f s em1 h
  have hlist := handlers_after_register em t f s em1 h
  have hmem : ¬({ callback := f, owner := s } : Handler) ∈ (assocGet em.events t).getD [] := by
    intro hmem
    have := (search_eq_neg_one_iff _ f s).mp helim.1 _ hmem
    rw [handlerMatches_self] at this
    exact Bool.noConfusion this
  constructor
  · unfold EventManager.register
    rw [hlist]
    have hfound : ¬EventManager.searchForCallback
        (((assocGet em.events t).getD []) ++ [{ callback := f, owner := s }]) f s = -1 := by
      rw [search_eq_neg_one_iff]
      intro hall
      have := hall { callback := f, owner := s } (by simp)
      rw [handlerMatches_self] at this
      exact Bool.noConfusion this
    rw [if_neg hfound]
  · unfold EventManager.trigger
    rw [hlist, runHandlers_envTrue, List.count_append]
    rw [List.count_eq_zero.mpr hmem]
    simp

theorem C2_register_idempotent_witness :
    EventManager.register { events := [] } "eat" 4 (some 9) =
      ({ events := [("eat", [{ callback := 4, owner := some 9 }])] }, true) ∧
    EventManager.register { events := [("eat", [{ callback := 4, owner := some 9 }])] }
        "eat" 4 (some 9) =
      ({ events := [("eat", [{ callback := 4, owner := some 9 }])] }, false) ∧
    (EventManager.trigger { events := [("eat", [{ callback := 4, owner := some 9 }])] }
        envTrue "eat" none).count { callback := 4, owner := some 9 } = 1 :=
  ⟨by decide,
    (C2_register_idempotent { events := [] } "eat" 4 (some 9)
      { events := [("eat", [{ callback := 4, owner := some 9 }])] } (by decide)).1,
    (C2_register_idempotent { events := [] } "eat" 4 (some 9)
      { events := [("eat", [{ callback := 4, owner := some 9 }])] } (by decide)).2⟩

theorem runHandlers_break (env : Nat → Option Nat → Bool) (hf : Handler)
    (post : List Handler) (hhf : env hf.callback hf.owner = false) :
    ∀ pre : List Handler, (∀ h ∈ pre, env h.callback h.owner = true) →
      runHandlers env none (pre ++ hf :: post) = pre ++ [hf] := by
  intro pre
  induction pre with
  | nil =>
    intro _
    simp [runHandlers, hhf]
  | cons h rest ih =>
    intro hpre
    have hh : env h.callback h.owner = true := hpre h (List.mem_cons_self _ _)
    have hstep : runHandlers env none ((h :: rest) ++ hf :: post)
        = h :: runHandlers env none (rest ++ hf :: post) := by
      simp [runHandlers, hh]
    rw [hstep, ih (fun h2 hm => hpre h2 (List.mem_cons_of_mem _ hm))]
    simp

/-- C4: trigger short-circuit scoping. If, among the handlers registered for
a topic, every handler before hf returns a value other than false and hf
returns the value false, then the trigger call invokes exactly the handlers
up to and including hf - none of the later-registered ones fire - while the
handler table itself is untouched (trigger is read-only in the model), so a
later independent trigger in which no callback short-circuits invokes all
registered handlers in order. -/
theorem C4_trigger_short_circuit (em : EventManager) (t : String)
    (env : Nat → Option Nat → Bool) (pre post : List Handler) (hf : Handler)
    (hlist : (assocGet em.events t).getD [] = pre ++ hf :: post)
    (hpre : ∀ h ∈ pre, env h.callback h.owner = true)
    (hhf : env hf.callback hf.owner = false) :
    EventManager.trigger em env t none = pre ++ [hf] ∧
    EventManager.trigger em envTrue t none = pre ++ hf :: post := by
  constructor
  · unfold EventManager.trigger
    rw [hlist]
    exact runHandlers_break env hf post hhf pre hpre
  · unfold EventManager.trigger
    rw [hlist, runHandlers_envTrue]

theorem C4_trigger_short_circuit_witness :
    EventManager.trigger
        { events := [("collide",
            [{ callback := 0, owner := none }, { callback := 1, owner := none },
             { callback := 2, owner := none }])] }
        (fun cb _ => decide (cb ≠ 1)) "collide" none =
      [{ callback := 0, owner := none }, { callback := 1, owner := none }] ∧
    EventManager.trigger
        { events := [("collide",
            [{ callback := 0, owner := none }, { callback := 1, owner := none },
             { callback := 2, owner := none }])] }
        envTrue "collide" none =
      [{ callback := 0, owner := none }, { callback := 1, owner := none },
       { callback := 2, owner := none }] :=
  C4_trigger_short_circuit
    { events := [("collide",
        [{ callback := 0, owner := none }, { callback := 1, owner := none },
         { callback := 2, owner := none }])] }
    "collide" (fun cb _ => decide (cb ≠ 1))
    [{ callback := 0, owner := none }] [{ callback := 2, owner := none }]
    { callback := 1, owner := none }
    (by decide) (by decide) (by decide)

/-- C10: scope-blind duplicate detection. After a successful
register(t, f, some s), a scope-less register(t, f) returns false and adds
nothing: the owner-less search treats any existing registration of the same
callback, under any scope, as a duplicate. -/
theorem C10_scopeless_duplicate (em : EventManager) (t : String) (f s : Nat)
    (em1 : EventManager)
    (h : EventManager.register em t f (some s) = (em1, true)) :
    EventManager.register em1 t f none = (em1, false) := by
  have hlist := handlers_after_register em t f (some s) em1 h
  unfold EventManager.register
  rw [hlist]
  have hfound : ¬EventManager.searchForCallback
      (((assocGet em.events t).getD []) ++ [{ callback := f, owner := some s }]) f none
        = -1 := by
    rw [search_eq_neg_one_iff]
    intro hall
    have := hall { callback := f, owner := some s } (by simp)
    simp [handlerMatches] at this
  rw [if_neg hfound]

theorem C10_scopeless_duplicate_witness :
    EventManager.register { events := [("die", [{ callback := 3, owner := some 8 }])] }
        "die" 3 none =
      ({ events := [("die", [{ callback := 3, owner := some 8 }])] }, false) :=
  C10_scopeless_duplicate { events := [] } "die" 3 8
    { events := [("die", [{ callback := 3, owner := some 8 }])] } (by decide)

/-! ### Player snake (Slither.Objects.Snake in rat.js)

The snake keeps a current heading (null until first set), a queue of pending
heading changes, a configured length (0 encodes the JS falsy unset value;
setLength always stores at least MIN_LENGTH) and its body blocks. -/

inductive Heading
  | left
  | up
  | right
  | down
deriving Repr, DecidableEq

/-- The direct reverse of a heading. Used to state the acceptance condition
of the heading queue; the source encodes it case by case in setHeading. -/
def reverseHeading : Heading → Heading
  | Heading.left => Heading.right
  | Heading.up => Heading.down
  | Heading.right => Heading.left
  | Heading.down => Heading.up

/-- The allow test of Snake.setHeading: the switch compares the issued
heading against the CURRENT heading (this.heading), not against anything in
the queue. -/
def headingAllow (cur : Option Heading) : Heading → Bool
  | Heading.up => decide (cur ≠ some Heading.down)
  | Heading.down => decide (cur ≠ some Heading.up)
  | Heading.left => decide (cur ≠ some Heading.right)
  | Heading.right => decide (cur ≠ some Heading.left)

def Snake.MIN_LENGTH : Nat := 2

structure Snake where
  heading : Option Heading
  heading_queue : List Heading
  length : Nat
  body_blocks : List (Nat × Nat)
deriving Repr, DecidableEq

def Snake.setHeading (s : Snake) (h : Heading) : Snake :=
  if s.heading_queue.getLast? = some h then s
  else if headingAllow s.heading h then
    { s with heading_queue := s.heading_queue ++ [h] }
  else s

def Snake.getHeading (s : Snake) : Snake × Option Heading :=
  match s.heading_queue with
  | [] => (s, s.heading)
  | h :: rest => ({ s with heading := some h, heading_queue := rest }, some h)

def Snake.getLength (s : Snake) : Nat :=
  if s.length = 0 then Snake.MIN_LENGTH else s.length

def Snake.setLength (s : Snake) (len : Option Nat) : Snake :=
  let len := match len with
    | none => Snake.MIN_LENGTH
    | some v => if v = 0 ∨ v < Snake.MIN_LENGTH then Snake.MIN_LENGTH else v
  if s.length = 0 then { s with length := len }
  else
    let diff : Int := (s.length : Int) - (len : Int)
    if diff > 1 then
      { s with length := len, body_blocks := s.body_blocks.drop diff.toNat }
    else { s with length := len }

theorem headingAllow_iff (cur : Option Heading) (h : Heading) :
    headingAllow cur h = decide (cur ≠ some (reverseHeading h)) := by
  cases h <;> rfl

/-- C3 counterexample: with current heading Right, issuing Up queues Up; Up
is now the just-issued-but-not-yet-applied heading and is still queued, yet
issuing Down, the direct reverse of Up, is ACCEPTED into the queue. The
rejection test of setHeading compares against the current heading only, so
the claimed rejection of the reverse of the queued heading does not hold. -/
theorem C3_reverse_of_queued_accepted :
    (Snake.setHeading
      { heading := some Heading.right, heading_queue := [], length := 2,
        body_blocks := [] } Heading.up).heading_queue = [Heading.up] ∧
    (Snake.setHeading
      (Snake.setHeading
        { heading := some Heading.right, heading_queue := [], length := 2,
          body_blocks := [] } Heading.up) Heading.down).heading_queue =
      [Heading.up, Heading.down] := by
  constructor
  · decide
  · decide

/-- C3 amended: a heading issued to the queue is accepted exactly when it is
not a duplicate of the most recently queued heading and not the direct
reverse of the CURRENT (last applied) heading; acceptance appends it to the
queue and rejection leaves the snake unchanged. (The original claim that the
reverse of a queued-but-not-yet-applied heading is rejected is refuted by
the counterexample; the check uses the current heading only.) -/
theorem C3_heading_queue_amended (s : Snake) (h : Heading) :
    (s.heading_queue.getLast? ≠ some h ∧ s.heading ≠ some (reverseHeading h) →
      Snake.setHeading s h = { s with heading_queue := s.heading_queue ++ [h] }) ∧
    (s.heading_queue.getLast? = some h ∨ s.heading = some (reverseHeading h) →
      Snake.setHeading s h = s) := by
  constructor
  · intro hacc
    unfold Snake.setHeading
    rw [if_neg hacc.1]
    rw [headingAllow_iff]
    simp [hacc.2]
  · intro hrej
    unfold Snake.setHeading
    rcases hrej with hrej | hrej
    · rw [if_pos hrej]
    · by_cases hdup : s.heading_queue.getLast? = some h
      · rw [if_pos hdup]
      · rw [if_neg hdup, headingAllow_iff]
        simp [hrej]

theorem C3_heading_queue_amended_witness :
    Snake.setHeading
        { heading := some Heading.right, heading_queue := [], length := 2,
          body_blocks := [] } Heading.up =
      { heading := some Heading.right, heading_queue := [Heading.up], length := 2,
        body_blocks := [] } ∧
    Snake.setHeading
        { heading := some Heading.up, heading_queue := [], length := 2,
          body_blocks := [] } Heading.down =
      { heading := some Heading.up, heading_queue := [], length := 2,
        body_blocks := [] } :=
  ⟨(C3_heading_queue_amended
      { heading := some Heading.right, heading_queue := [], length := 2,
        body_blocks := [] } Heading.up).1 (by decide),
   (C3_heading_queue_amended
      { heading := some Heading.up, heading_queue := [], length := 2,
        body_blocks := [] } Heading.down).2 (by decide)⟩

/-- C9: implicit minimum snake length. setLength stores at least
MIN_LENGTH = 2 for every input, including a missing length, and on any snake
whose stored length is either unset (0) or already at least 2 - the only
states setLength can produce - getLength returns at least 2; growth
(setLength of a larger value) and restart (a fresh snake built through
setLength) therefore can never drive the configured length below 2. -/
theorem setLength_length (s : Snake) (len : Option Nat) :
    (Snake.setLength s len).length =
      match len with
      | none => Snake.MIN_LENGTH
      | some v => if v = 0 ∨ v < Snake.MIN_LENGTH then Snake.MIN_LENGTH else v := by
  unfold Snake.setLength
  cases len with
  | none =>
    dsimp only
    repeat' split
    all_goals rfl
  | some v =>
    dsimp only
    repeat' split
    all_goals rfl

/-- C9: implicit minimum snake length. setLength stores at least
MIN_LENGTH = 2 for every input, including a missing length, and on any snake
whose stored length is either unset (0) or already at least 2 - the only
states setLength can produce - getLength returns at least 2; growth
(setLength of a larger value) and restart (a fresh snake built through
setLength) therefore can never drive the configured length below 2. -/
theorem C9_min_length (s : Snake) (len : Option Nat) :
    Snake.MIN_LENGTH ≤ (Snake.setLength s len).length ∧
    (s.length = 0 ∨ Snake.MIN_LENGTH ≤ s.length →
      Snake.MIN_LENGTH ≤ Snake.getLength s) := by
  constructor
  · rw [setLength_length s len]
    cases len with
    | none => exact Nat.le_refl _
    | some v =>
      dsimp only
      split
      · exact Nat.le_refl _
      · unfold Snake.MIN_LENGTH at *
        omega
  · intro hinv
    unfold Snake.getLength
    rcases hinv with h0 | h2
    · simp [h0]
    · have : ¬s.length = 0 := by
        unfold Snake.MIN_LENGTH at h2
        omega
      simp [this]
      exact h2

theorem C9_min_length_witness :
    Snake.MIN_LENGTH ≤ (Snake.setLength
      { heading := none, heading_queue := [], length := 0, body_blocks := [] }
      (some 1)).length ∧
    Snake.MIN_LENGTH ≤ Snake.getLength
      { heading := none, heading_queue := [], length := 0, body_blocks := [] } :=
  ⟨(C9_min_length
      { heading := none, heading_queue := [], length := 0, body_blocks := [] }
      (some 1)).1,
   (C9_min_length
      { heading := none, heading_queue := [], length := 0, body_blocks := [] }
      (some 1)).2 (Or.inl rfl)⟩

/-! ### Core constants (core.js) -/

def FRAME_RATE : Int := 40

def SpeedLevels.Min : Nat := 1

def SpeedLevels.Max : Nat := 5

/-- JS Math.round: round half toward positive infinity. -/
def jsRound (q : Rat) : Int := ⌊q + 1 / 2⌋

/-! ### Eat scoring (Game.onEat with Snake.setLength)

The embedding covers the score/growth fragment of Game.onEat: the eaten
object is only inspected through its species (instanceof checks), and the
object-registry removal, the alloc re-trigger and the level-advancement
check do not touch score or snake length. GameE.speed stands for the
current game speed as returned by Game.getSpeed (snake speed, falling back
to SpeedLevels.Min when falsy). -/

inductive EatKind
  | mouse
  | grain
  | rat
  | other
deriving Repr, DecidableEq

structure GameE where
  score : Int
  snake : Snake
  speed : Nat
deriving Repr, DecidableEq

def GameE.getSpeed (g : GameE) : Nat :=
  if g.speed = 0 then SpeedLevels.Min else g.speed

def Game.onEat (g : GameE) (kind : EatKind) : GameE :=
  let basic_score : Int := (g.getSpeed : Int) * 3
  let basic_growth_offset : Int := ⌈(g.getSpeed : Rat) * (0.5 : Rat)⌉
  let score_growth : Int × Int :=
    match kind with
    | EatKind.mouse => (g.score + basic_score, basic_growth_offset)
    | EatKind.grain =>
      (g.score + ⌈(0.2 : Rat) * (basic_score : Rat)⌉,
        ⌈(0.2 : Rat) * (basic_growth_offset : Rat)⌉)
    | EatKind.rat =>
      (g.score + 10 * basic_score,
        ⌊(0.1 : Rat) * (basic_growth_offset : Rat)⌋ + basic_growth_offset)
    | EatKind.other => (g.score, basic_growth_offset)
  { g with
      score := score_growth.1,
      snake := g.snake.setLength
        (some ((g.snake.getLength : Int) + score_growth.2).toNat) }

theorem setLength_getLength_grow (s : Snake) (d : Nat) (hd : 2 ≤ d) :
    (s.setLength (some (s.getLength + d))).getLength = s.getLength + d := by
  have htarget : ¬(s.getLength + d = 0 ∨ s.getLength + d < Snake.MIN_LENGTH) := by
    unfold Snake.MIN_LENGTH
    omega
  have hlen : (s.setLength (some (s.getLength + d))).length = s.getLength + d := by
    rw [setLength_length]
    dsimp only
    rw [if_neg htarget]
  have hgl : ∀ t : Snake, t.length ≠ 0 → t.getLength = t.length := by
    intro t ht
    unfold Snake.getLength
    rw [if_neg ht]
  have hne : (s.setLength (some (s.getLength + d))).length ≠ 0 := by
    rw [hlen]
    omega
  rw [hgl _ hne]
  exact hlen

/-- C6: eat scoring scenario. With the game speed at level 3, eating a Mouse
(the basic prey) adds exactly 3*3 = 9 to the score and grows the configured
snake length by exactly ceil(3*0.5) = 2. -/
theorem C6_eat_scoring (g : GameE) (hspeed : g.speed = 3) :
    (Game.onEat g EatKind.mouse).score = g.score + 9 ∧
    (Game.onEat g EatKind.mouse).snake.getLength = g.snake.getLength + 2 := by
  have hs : g.getSpeed = 3 := by
    unfold GameE.getSpeed
    rw [hspeed]
    norm_num
  have hceil : (⌈((3 : Nat) : Rat) * (0.5 : Rat)⌉ : Int) = 2 := by
    rw [Int.ceil_eq_iff]
    constructor
    · norm_num
    · norm_num
  unfold Game.onEat
  rw [hs]
  dsimp only
  rw [hceil]
  constructor
  · norm_num
  · have harg : (((g.snake.getLength : Int)) + 2).toNat = g.snake.getLength + 2 := by
      omega
    rw [harg]
    exact setLength_getLength_grow g.snake 2 (by omega)

theorem C6_eat_scoring_witness :
    (Game.onEat
      { score := 0,
        snake := { heading := none, heading_queue := [], length := 2, body_blocks := [] },
        speed := 3 } EatKind.mouse).score = 0 + 9 ∧
    (Game.onEat
      { score := 0,
        snake := { heading := none, heading_queue := [], length := 2, body_blocks := [] },
        speed := 3 } EatKind.mouse).snake.getLength =
      Snake.getLength { heading := none, heading_queue := [], length := 2, body_blocks := [] }
        + 2 :=
  C6_eat_scoring
    { score := 0,
      snake := { heading := none, heading_queue := [], length := 2, body_blocks := [] },
      speed := 3 } rfl

/-! ### Frame-rate handling (ObjectManager.handleFrames) -/

/-- The frame difference computed per entity each tick in handleFrames. -/
def ObjectManager.frameDiff (speed : Nat) : Int :=
  jsRound ((FRAME_RATE : Rat) / (SpeedLevels.Max : Rat)) * (speed : Int) - FRAME_RATE

/-- The fatal configuration-error condition in handleFrames: the error is
thrown exactly when the absolute frame difference reaches FRAME_RATE. -/
def ObjectManager.handleFramesRaises (speed : Nat) : Bool :=
  decide (FRAME_RATE ≤ |ObjectManager.frameDiff speed|)

/-- C8: frame-rate configuration error. The per-entity frame handler raises
its fatal error exactly when |round(FRAME_RATE / SpeedLevels.Max) * speed -
FRAME_RATE| is at least FRAME_RATE, and under the shipped configuration
(FRAME_RATE = 40, speed levels 1..5) the error branch is unreachable for
every entity whose speed lies in [Min, Max]. -/
theorem C8_frame_rate_config :
    (∀ speed : Nat, ObjectManager.handleFramesRaises speed = true ↔
      FRAME_RATE ≤ |jsRound ((FRAME_RATE : Rat) / (SpeedLevels.Max : Rat)) * (speed : Int)
        - FRAME_RATE|) ∧
    (∀ speed : Nat, SpeedLevels.Min ≤ speed → speed ≤ SpeedLevels.Max →
      ObjectManager.handleFramesRaises speed = false) := by
  have hround : jsRound ((FRAME_RATE : Rat) / (SpeedLevels.Max : Rat)) = 8 := by
    unfold jsRound FRAME_RATE SpeedLevels.Max
    norm_num
  constructor
  · intro speed
    unfold ObjectManager.handleFramesRaises ObjectManager.frameDiff
    simp
  · intro speed h1 h2
    unfold ObjectManager.handleFramesRaises ObjectManager.frameDiff
    rw [hround]
    unfold SpeedLevels.Min at h1
    unfold SpeedLevels.Max at h2
    unfold FRAME_RATE
    simp only [decide_eq_false_iff_not, not_le]
    have habs : |8 * (speed : Int) - 40| = 40 - 8 * (speed : Int) := by
      rw [abs_of_nonpos (by omega)]
      omega
    omega

theorem C8_frame_rate_config_witness :
    ObjectManager.handleFramesRaises 3 = false :=
  C8_frame_rate_config.2 3 (by decide) (by decide)

/-! ### Game lifecycle (Game.start / Game.pause / Game.end / setupLevels)

The state slice tracks the started/finished/player_dead flags of the Game,
the running state of the ObjectManager animation timer (sched), and the
LevelManager level index. Game.start may call level_man.advance, whose level
activation callback (the addLevel wrapper in setupLevels) pauses, clears all
objects (stopping the timer), rebuilds the snake (clearing player_dead) and
calls start again; the recursion is bounded because the advanced level index
is no longer below 1, modelled with a fuel parameter that reachable calls
never exhaust. -/

def LevelManager.numLevels : Nat := 7

structure GState where
  started : Bool
  finished : Bool
  player_dead : Bool
  sched : Bool
  level : Int
deriving Repr, DecidableEq

def Game.pause (s : GState) : GState :=
  if s.started = true ∧ s.finished = false ∧ s.player_dead = false then
    { s with started := false, sched := false }
  else s

def Game.startF : Nat → GState → GState
  | 0, s => s
  | fuel + 1, s =>
    if s.started = false ∧ s.finished = false ∧ s.player_dead = false then
      let s1 :=
        if s.level + 1 < 1 then
          let sa := { s with level := s.level + 1 }
          if sa.level > (LevelManager.numLevels : Int) - 1 then
            { sa with level := (LevelManager.numLevels : Int) - 1 }
          else
            let sb := Game.pause sa
            let sc := { sb with sched := false }
            let sd := { sc with player_dead := false }
            Game.startF fuel sd
        else s
      { s1 with sched := true, started := true }
    else s

def Game.start (s : GState) : GState := Game.startF 2 s

def Game.endGame (s : GState) : GState :=
  if s.started = true then
    let s1 := Game.pause s
    { s1 with finished := true }
  else s

inductive LifecycleOp
  | start
  | pause
  | finish
deriving Repr, DecidableEq

def applyLifecycle (s : GState) : LifecycleOp → GState
  | LifecycleOp.start => Game.start s
  | LifecycleOp.pause => Game.pause s
  | LifecycleOp.finish => Game.endGame s

def applyLifecycles (s : GState) (ops : List LifecycleOp) : GState :=
  ops.foldl applyLifecycle s

/-- The freshly constructed game: flags unset, level index -1. -/
def gInit : GState :=
  { started := false, finished := false, player_dead := false, sched := false,
    level := -1 }

/-- C7 counterexample: end() is NOT terminal from the paused state. Starting
the fresh game and pausing reaches a paused state (started and finished both
clear); calling end() there is a no-op - the game is not marked Finished -
and a subsequent start() (with no intervening restart()) starts the
scheduler again. -/
theorem C7_end_paused_not_terminal :
    (Game.pause (Game.start gInit)).started = false ∧
    (Game.pause (Game.start gInit)).finished = false ∧
    Game.endGame (Game.pause (Game.start gInit)) = Game.pause (Game.start gInit) ∧
    (Game.endGame (Game.pause (Game.start gInit))).finished = false ∧
    (Game.start (Game.endGame (Game.pause (Game.start gInit)))).sched = true ∧
    (Game.start (Game.endGame (Game.pause (Game.start gInit)))).started = true := by
  decide

theorem lifecycle_fixed (t : GState) (hf : t.finished = true) (hs : t.started = false) :
    ∀ op : LifecycleOp, applyLifecycle t op = t := by
  intro op
  cases op with
  | start =>
    unfold applyLifecycle Game.start Game.startF
    rw [if_neg]
    intro hcontra
    rw [hf] at hcontra
    exact Bool.noConfusion hcontra.2.1
  | pause =>
    unfold applyLifecycle Game.pause
    rw [if_neg]
    intro hcontra
    rw [hs] at hcontra
    exact Bool.noConfusion hcontra.1
  | finish =>
    unfold applyLifecycle Game.endGame
    rw [if_neg]
    rw [hs]
    exact Bool.noConfusion

/-- C7 amended: end() called while the game is running (started, not
finished, player alive) stops the scheduler, clears started and marks the
game Finished, and from that point every further sequence of start(),
pause() and end() calls (without a restart()) leaves the state unchanged,
so the scheduler never starts again. end() called in the paused state,
however, is a no-op (see the counterexample), so the claimed behaviour
holds for running states only. -/
theorem C7_end_terminal_amended (s : GState) (h1 : s.started = true)
    (h2 : s.finished = false) (h3 : s.player_dead = false) :
    (Game.endGame s).finished = true ∧
    (Game.endGame s).started = false ∧
    (Game.endGame s).sched = false ∧
    (∀ ops : List LifecycleOp,
      applyLifecycles (Game.endGame s) ops = Game.endGame s) := by
  have hend : Game.endGame s =
      { s with started := false, sched := false, finished := true } := by
    unfold Game.endGame Game.pause
    rw [if_pos h1, if_pos ⟨h1, h2, h3⟩]
  refine ⟨by rw [hend], by rw [hend], by rw [hend], ?_⟩
  intro ops
  induction ops with
  | nil => rfl
  | cons op rest ih =>
    have hfix : applyLifecycle (Game.endGame s) op = Game.endGame s := by
      refine lifecycle_fixed (Game.endGame s) ?_ ?_ op
      · rw [hend]
      · rw [hend]
    unfold applyLifecycles at ih ⊢
    rw [List.foldl_cons, hfix]
    exact ih

theorem C7_end_terminal_amended_witness :
    (Game.endGame (Game.start gInit)).finished = true ∧
    (Game.endGame (Game.start gInit)).started = false ∧
    (Game.endGame (Game.start gInit)).sched = false ∧
    (∀ ops : List LifecycleOp,
      applyLifecycles (Game.endGame (Game.start gInit)) ops =
        Game.endGame (Game.start gInit)) :=
  C7_end_terminal_amended (Game.start gInit) (by decide) (by decide) (by decide)

/-! ### Level object generation (Game.genObjects)

The count-relevant fragment of Game.genObjects: parsing the range, drawing
the random target count (genNumber, with the random draw modelled by a seed
offset rnd; when low = high the draw is the single value), and partitioning
the target count across the entity classes by bias percentages. The
per-class generation loop then creates exactly part_data[i] objects of
class i, so the returned partition list is the per-class object count.
Bias percentages are exact rationals. In partAux the countdown rem + 1
equals classes.length - i, so rem = 0 exactly at the last class. -/

def genNumber (low high rnd : Nat) : Nat :=
  if low = high then low else low + rnd % (high - low + 1)

def partAux (target : Int) (bias : List Rat) (numClasses : Nat) :
    Nat → Rat → Int → List Int
  | 0, _, _ => []
  | rem + 1, perc_left, ttl =>
    let i := numClasses - (rem + 1)
    let target_bias0 : Rat :=
      match bias.get? i with
      | some b => |b|
      | none =>
        if ((rem + 1 : Nat) : Int) > 0 then perc_left / ((rem + 1 : Nat) : Rat)
        else perc_left
    let target_bias := if target_bias0 > perc_left then perc_left else target_bias0
    let perc_left2 := perc_left - target_bias
    let bias_count : Rat := target_bias * (target : Rat)
    let lo : Int := ⌊bias_count⌋
    let hi : Int := ⌈bias_count⌉
    let cc0 : Int := if bias_count - (lo : Rat) > (hi : Rat) - bias_count then hi else lo
    let cc : Int := if rem = 0 ∧ ttl < target then target - ttl else cc0
    cc :: partAux target bias numClasses rem perc_left2 (ttl + cc)

def partData (target : Int) (numClasses : Nat) (bias : List Rat) : List Int :=
  partAux target bias numClasses numClasses 1 0

def Game.genObjectsCounts (range : List Nat) (numClasses : Nat) (bias : List Rat)
    (rnd : Nat) : Option (List Int) :=
  match range with
  | [] => none
  | [n] => some (partData (n : Int) numClasses bias)
  | lo :: hi :: _ =>
    let lo2 := if lo > hi then hi else lo
    some (partData ((genNumber lo2 hi rnd : Nat) : Int) numClasses bias)

theorem partData_bias_seven_tenths : partData 10 2 [(7 / 10 : Rat)] = [7, 3] := by
  have habs : |(7 / 10 : Rat)| = 7 / 10 := abs_of_nonneg (by norm_num)
  have hmul : (7 / 10 : Rat) * 10 = 7 := by norm_num
  have hmul2 : (1 - 7 / 10 : Rat) * 10 = 3 := by norm_num
  norm_num [partData, partAux, habs, hmul, hmul2, Int.fract]

/-- C5: level bias partition. genObjects with range [10, 10], two entity
classes and bias list [0.7] always (for every random draw) partitions the
target count 10 into exactly 7 objects of the first class and 3 of the
second - the remainder after floor/ceil-nearest rounding being absorbed by
the last class - so the counts sum to exactly 10. -/
theorem C5_bias_partition (rnd : Nat) :
    Game.genObjectsCounts [10, 10] 2 [(0.7 : Rat)] rnd = some [7, 3] ∧
    (partData 10 2 [(0.7 : Rat)]).sum = 10 := by
  constructor
  · unfold Game.genObjectsCounts
    dsimp only
    have hg : genNumber (if 10 > 10 then 10 else 10) 10 rnd = 10 := by
      simp [genNumber]
    rw [hg]
    norm_num [partData_bias_seven_tenths]
  · norm_num [partData_bias_seven_tenths]
